import Mathlib

/-!
Verification development for the snapchat-memories-downloader pipeline core.

The definitions below are a shallow embedding of the TypeScript sources:
  - `src/main/utils/date.ts`, `src/main/utils/naming.ts` (toIsoUtc, toFilenameStamp,
    buildOutputName),
  - `src/main/pipeline/pipeline-control.ts` (PipelineControl),
  - `src/main/services/download-service.ts` (DownloadService.processEntry/run),
  - `src/main/services/state-store.ts` (StateStore),
  - `src/main/services/dedup-service.ts` (DedupService),
  - `src/main/services/post-process-service.ts` (PostProcessService),
  - `src/main/services/metadata-service.ts` (MetadataService.run),
  - `src/main/services/verification-service.ts` (VerificationService).

External effects (network fetches, luxon date parsing, sharp / ffmpeg invocations,
the file system) are modelled as explicit environment records of oracles; every
pure computation and every branch of the translated functions follows the source
line by line, including JavaScript truthiness checks (empty string and zero are
falsy) which are made explicit through `truthyStr` / `truthyNat`.
-/

/-- The `mediaType` of an item: `'image' | 'video' | 'unknown'` (shared/types/memory-entry.ts). -/
inductive MediaType
  | image
  | video
  | unknown
deriving DecidableEq, Repr

/-- The `DownloadStatus` union from shared/types/memory-entry.ts. -/
inductive DownloadStatus
  | pending
  | downloading
  | downloaded
  | processed
  | metadata
  | deduped
  | failed
  | skipped
deriving DecidableEq, Repr

/-- The `FailureStage` union from shared/types/memory-entry.ts. -/
inductive FailureStage
  | download
  | postProcess
  | metadata
  | verification
  | other
deriving DecidableEq, Repr

/-- The `'GET' | 'POST'` download method hint. -/
inductive MethodHint
  | get
  | post
deriving DecidableEq, Repr

/-- The `MemoryEntry` interface (shared/types/memory-entry.ts).  TS-optional fields
become `Option`; `errors` is kept as a plain list because every source site reads it
through `entry.errors ?? []`.  The GPS coordinates are TS floats; no verified claim
reads them, so they are carried as opaque `Option Int` payload. -/
structure MemoryEntry where
  index : Nat
  capturedAtUtc : String
  capturedAtRaw : String
  mediaType : MediaType
  hasGps : Bool
  latitude : Option Int
  longitude : Option Int
  locationRaw : Option String
  downloadUrl : String
  downloadMethodHint : Option MethodHint
  isZipPayload : Bool
  downloadStatus : DownloadStatus
  downloadedPath : Option String
  finalPath : Option String
  errors : List String
  attempts : Option Nat
  contentHash : Option String
  failureStage : Option FailureStage
deriving DecidableEq, Repr

/-- JavaScript truthiness of an optional string: `undefined` and `''` are falsy. -/
def truthyStr : Option String → Bool
  | some s => s != ""
  | none => false

/-- JavaScript truthiness of an optional number: `undefined` and `0` are falsy. -/
def truthyNat : Option Nat → Bool
  | some n => n != 0
  | none => false

/-- A convenient fully-populated default entry used to build concrete test items. -/
def baseEntry : MemoryEntry :=
  { index := 0
    capturedAtUtc := ""
    capturedAtRaw := ""
    mediaType := .image
    hasGps := false
    latitude := none
    longitude := none
    locationRaw := none
    downloadUrl := ""
    downloadMethodHint := none
    isZipPayload := false
    downloadStatus := .pending
    downloadedPath := none
    finalPath := none
    errors := []
    attempts := none
    contentHash := none
    failureStage := none }

/-! ## Path and string helpers (node:path / JS string fragments used by the
services).  These are written by structural recursion over the character list
so that concrete runs reduce inside the kernel. -/

/-- Take characters of an (already reversed) list up to the first occurrence of
`c` — i.e. the suffix of the original list after the last `c`. -/
def revTakeWhileNe (c : Char) : List Char → List Char
  | [] => []
  | x :: xs => if x = c then [] else x :: revTakeWhileNe c xs

/-- The `String.prototype.startsWith` / Lean's `startsWith`, via list prefixes. -/
def strStartsWith (s pre : String) : Bool :=
  pre.data.isPrefixOf s.data

/-- The `String.prototype.toLowerCase` (ASCII, which covers every extension the
services compare). -/
def toLowerStr (s : String) : String :=
  String.mk (s.data.map Char.toLower)

/-- The `path.basename`: the final component of a `/`-separated path. -/
def basename (p : String) : String :=
  String.mk ((revTakeWhileNe '/' p.data.reverse).reverse)

/-- The `path.extname`: the extension from the last dot of the final path
component; `''` when there is no dot or the dot leads the basename (node
treats `.png` as extensionless). -/
def extname (p : String) : String :=
  let b := (revTakeWhileNe '/' p.data.reverse).reverse
  let after := revTakeWhileNe '.' b.reverse
  if after.length = b.length then ""
  else if after.length + 1 = b.length then ""
  else "." ++ String.mk after.reverse

/-! ## Date module — `src/main/utils/date.ts`

The luxon library is modelled by a `Clock` environment: `parseISO` stands for
`DateTime.fromISO(s, { zone: 'utc' })` returning the epoch instant when the
result `isValid`, `nowMillis` for `DateTime.utc()`, and the three rendering
oracles for `toISO()`, `toFormat('yyyy:MM:dd HH:mm:ss')` and
`toFormat('yyyy-LL-dd_HH-mm-ssZ')` applied to a UTC instant. -/

structure Clock where
  parseISO : String → Option Nat
  nowMillis : Nat
  isoOfMillis : Nat → String
  exifOfMillis : Nat → String
  stampOfMillis : Nat → String

/-- JavaScript `String.prototype.replace` with a plain-string pattern: replaces
only the first occurrence. -/
def replaceFirst (s pat rep : String) : String :=
  match s.splitOn pat with
  | [] => s
  | [x] => x
  | x :: rest => x ++ rep ++ String.intercalate pat rest

/-- The normalisation performed inside `toIsoUtc`:
`raw.replace(' UTC', 'Z').replace(' ', 'T')`. -/
def normalizeDateInput (raw : String) : String :=
  replaceFirst (replaceFirst raw " UTC" "Z") " " "T"

/-- The `toIsoUtc` (date.ts lines 3-10): empty input and unparsable input both fall
back to the current clock time; otherwise the parsed instant is rendered. -/
def toIsoUtc (c : Clock) (raw : String) : String :=
  if raw = "" then c.isoOfMillis c.nowMillis
  else
    match c.parseISO (normalizeDateInput raw) with
    | some m => c.isoOfMillis m
    | none => c.isoOfMillis c.nowMillis

/-- The `toExifTimestamp` (date.ts lines 12-18). -/
def toExifTimestamp (c : Clock) (iso : String) : String :=
  match c.parseISO iso with
  | some m => c.exifOfMillis m
  | none => c.exifOfMillis c.nowMillis

/-- The `toFilenameStamp` (date.ts lines 20-23). -/
def toFilenameStamp (c : Clock) (iso : String) : String :=
  match c.parseISO iso with
  | some m => c.stampOfMillis m
  | none => c.stampOfMillis c.nowMillis

/-- The `MemoryMediaType` rendered into the output filename. -/
def mediaTypeString : MediaType → String
  | .image => "image"
  | .video => "video"
  | .unknown => "unknown"

/-- Zero padding used by `buildOutputName`: `index.toString().padStart(6, '0')`. -/
def padStart6 (n : Nat) : String :=
  let s := toString n
  if s.length ≥ 6 then s
  else String.mk (List.replicate (6 - s.length) '0') ++ s

/-- The `buildOutputName` (naming.ts): `<stamp>_<mediaType>_<zero-padded-index><ext>`. -/
def buildOutputName (c : Clock) (capturedAtIso : String) (mediaType : String)
    (index : Nat) (ext : String) : String :=
  let stamp := toFilenameStamp c capturedAtIso
  let safeExt := if strStartsWith ext "." then ext else "." ++ ext
  stamp ++ "_" ++ mediaType ++ "_" ++ padStart6 index ++ safeExt

/-! ## Pause gate — `src/main/pipeline/pipeline-control.ts`

The gate's mutable state is `paused`, the pending `waiters` (promise resolvers,
identified by arbitrary `Nat` tokens) and the registered change `listeners`.
Operations additionally return the observable effects: the list of released
waiters and the notifications `(listener, newPausedState)` emitted to listeners. -/

structure PipelineControl where
  paused : Bool
  waiters : List Nat
  listeners : List Nat
deriving DecidableEq, Repr

namespace PipelineControl

/-- The `emit()`: every registered listener receives the current paused flag. -/
def emitTo (c : PipelineControl) : List (Nat × Bool) :=
  c.listeners.map (fun l => (l, c.paused))

/-- The `pause()` (lines 18-24): early-returns with no notification when already
paused; otherwise flips the flag and notifies listeners. -/
def pause (c : PipelineControl) : PipelineControl × List (Nat × Bool) :=
  if c.paused then (c, [])
  else
    let c' := { c with paused := true }
    (c', emitTo c')

/-- The `resume()` (lines 26-37): early-returns when not paused; otherwise clears the
flag, releases every pending waiter (snapshot of the array), and notifies. -/
def resume (c : PipelineControl) : PipelineControl × List Nat × List (Nat × Bool) :=
  if c.paused then
    let c' := { c with paused := false, waiters := [] }
    (c', c.waiters, emitTo c')
  else (c, [], [])

/-- The `reset()` (lines 39-42). -/
def reset (c : PipelineControl) : PipelineControl :=
  { c with paused := false, waiters := [] }

/-- The `waitIfPaused()` (lines 44-51): returns immediately (`true`) when not paused;
when paused, registers the caller's resolver and blocks (`false`). -/
def waitIfPaused (c : PipelineControl) (waiter : Nat) : PipelineControl × Bool :=
  if c.paused then ({ c with waiters := c.waiters ++ [waiter] }, false)
  else (c, true)

end PipelineControl

/-! ## Fetch-engine backoff — download-service.ts line 116 -/

/-- The `Math.min(2000 * 2 ** (attempt - 1), 30000)`: the delay slept after failed
attempt `attempt` (1-based) before the next attempt. -/
def backoffDelay (attempt : Nat) : Nat :=
  min (2000 * 2 ^ (attempt - 1)) 30000

/-! ## Observable per-item events

A single trace vocabulary shared by the stage embeddings: `gateWait` records one
execution of `await control.waitIfPaused()`, `fetched` one network attempt by
the fetch engine, `slept` one `setTimeout` delay, `logMsg` one progress log. -/

inductive StageEvent
  | gateWait
  | fetched (attempt : Nat)
  | slept (ms : Nat)
  | logMsg (msg : String)
deriving DecidableEq, Repr

/-- Number of pause-gate consultations recorded in a trace. -/
def countGateWaits (tr : List StageEvent) : Nat :=
  tr.countP (fun ev => match ev with | .gateWait => true | _ => false)

/-- Number of network attempts recorded in a trace. -/
def networkRequests (tr : List StageEvent) : Nat :=
  tr.countP (fun ev => match ev with | .fetched _ => true | _ => false)

/-! ## Resumable state store — `src/main/services/state-store.ts`

`EntryStateRecord` is the durable subset of item state.  The optional fields are
`Option`; in an upsert patch, `none` means the field was absent from the object
literal, so the JS spread merge `{ ...old, ...record }` keeps the old value. -/

structure EntryStateRecord where
  index : Nat
  downloadStatus : DownloadStatus
  downloadedPath : Option String := none
  finalPath : Option String := none
  contentHash : Option String := none
  errors : Option (List String) := none
  attempts : Option Nat := none
  failureStage : Option FailureStage := none
deriving DecidableEq, Repr

/-- The in-memory `state.entries` table, keyed by item index.  The fetch-engine
claims only ever read fields of fetched records and upsert fresh object
literals, so a value-level association list is observationally faithful there;
the object-identity behaviour of `get` itself is modelled separately below for
the store claims. -/
abbrev StoreTable := List (Nat × EntryStateRecord)

/-- The `get(index)` lookup into the table (`this.state.entries[index]`). -/
def storeGet : StoreTable → Nat → Option EntryStateRecord
  | [], _ => none
  | (k, r) :: tl, idx => if k = idx then some r else storeGet tl idx

/-- The JS spread merge `{ ...existing, ...record }`: fields present in the
patch literal overwrite, absent fields keep the existing value. -/
def mergeRecord (old : Option EntryStateRecord) (patch : EntryStateRecord) : EntryStateRecord :=
  match old with
  | none => patch
  | some o =>
    { index := patch.index
      downloadStatus := patch.downloadStatus
      downloadedPath := (patch.downloadedPath).orElse (fun _ => o.downloadedPath)
      finalPath := (patch.finalPath).orElse (fun _ => o.finalPath)
      contentHash := (patch.contentHash).orElse (fun _ => o.contentHash)
      errors := (patch.errors).orElse (fun _ => o.errors)
      attempts := (patch.attempts).orElse (fun _ => o.attempts)
      failureStage := (patch.failureStage).orElse (fun _ => o.failureStage) }

/-- Keyed assignment `this.state.entries[idx] = v`. -/
def storeSet : StoreTable → Nat → EntryStateRecord → StoreTable
  | [], idx, v => [(idx, v)]
  | (k, r) :: tl, idx, v =>
    if k = idx then (idx, v) :: tl else (k, r) :: storeSet tl idx v

/-- The `upsert(record)`: assign the spread merge to the row keyed by `record.index`. -/
def storeUpsert (st : StoreTable) (patch : EntryStateRecord) : StoreTable :=
  storeSet st patch.index (mergeRecord (storeGet st patch.index) patch)

/-! ### Object-identity model of `StateStore.get`

`get(index)` executes `return this.state.entries[index];`, handing back the very
object stored in the table.  To reason about what mutating that object does, the
records live in a JavaScript-style heap of cells and the table maps an item
index to a cell reference; `get` returns the reference.  `upsert` builds a fresh
object literal (`{ ...old, ...record }`), i.e. allocates a new cell. -/

structure JsHeap where
  cells : List EntryStateRecord
deriving DecidableEq, Repr

/-- Dereference a cell. -/
def heapGet (h : JsHeap) (ref : Nat) : Option EntryStateRecord :=
  h.cells.get? ref

/-- Mutate the object stored in a cell (e.g. assigning to a field of the record
returned by `get`). -/
def heapSet (h : JsHeap) (ref : Nat) (r : EntryStateRecord) : JsHeap :=
  ⟨h.cells.set ref r⟩

/-- The persisted table under the heap model: item index ↦ cell reference. -/
structure HeapStore where
  entries : List (Nat × Nat)
deriving DecidableEq, Repr

/-- Reference lookup in the index ↦ cell table. -/
def refLookup : List (Nat × Nat) → Nat → Option Nat
  | [], _ => none
  | (k, ref) :: tl, idx => if k = idx then some ref else refLookup tl idx

/-- The `get(index)` under the heap model: the stored object (reference) itself, or
nothing when no record exists — no copy is made. -/
def heapStoreGet (st : HeapStore) (idx : Nat) : Option Nat :=
  refLookup st.entries idx

/-- The record contents an observer of the store sees for `idx`. -/
def storeContents (h : JsHeap) (st : HeapStore) (idx : Nat) : Option EntryStateRecord :=
  (heapStoreGet st idx).bind (heapGet h)

/-- Keyed assignment in the reference table. -/
def refSet : List (Nat × Nat) → Nat → Nat → List (Nat × Nat)
  | [], idx, ref => [(idx, ref)]
  | (k, r) :: tl, idx, ref =>
    if k = idx then (idx, ref) :: tl else (k, r) :: refSet tl idx ref

/-- The `upsert(record)` under the heap model: the spread literal allocates a fresh
cell holding the merged record and repoints the table row at it. -/
def heapStoreUpsert (h : JsHeap) (st : HeapStore) (patch : EntryStateRecord) :
    JsHeap × HeapStore :=
  let merged := mergeRecord (storeContents h st patch.index) patch
  let newRef := h.cells.length
  (⟨h.cells ++ [merged]⟩, ⟨refSet st.entries patch.index newRef⟩)

/-! ## Fetch engine — `src/main/services/download-service.ts`

The network is an oracle `attemptResult : index → attempt → Except errMsg path`
(the combined outcome of `fetchAndWrite`, which either throws or returns the
finalised download path); `pathExists` models `fs.pathExists`.  Concurrency of
the worker queue is abstracted to sequential per-item processing — the claims
verified here are per-item, and the shared store is the only cross-item state. -/

structure DlOptions where
  retryLimit : Nat
  throttleDelayMs : Nat

structure DlEnv where
  pathExists : String → Bool
  attemptResult : Nat → Nat → Except String String

/-- Result of `processEntry`: the mutated entry, the store after incremental
persists, the observable trace, and the error rethrown on retry exhaustion
(line 114 `throw error`), if any. -/
structure DlResult where
  entry : MemoryEntry
  store : StoreTable
  trace : List StageEvent
  thrown : Option String
deriving Repr

/-- The resume check at lines 78-85: persisted status `downloaded`, a truthy
`downloadedPath`, and the file still on disk. -/
def resumeRecord (env : DlEnv) (st : StoreTable) (idx : Nat) : Option EntryStateRecord :=
  match storeGet st idx with
  | some r =>
    if r.downloadStatus = .downloaded ∧ truthyStr r.downloadedPath ∧
        env.pathExists (r.downloadedPath.getD "") then some r
    else none
  | none => none

/-- The retry loop `for (attempt = 1; attempt <= retryLimit; attempt += 1)`
(lines 87-120).  `fuel` is the number of loop iterations still permitted by the
loop guard; `processEntry` starts it at `retryLimit` with `attempt = 1`, and
each iteration consumes one unit, so running out of fuel is exactly the loop
guard failing (line 122 `return entry`). -/
def downloadLoop (opts : DlOptions) (env : DlEnv) (e : MemoryEntry) (st : StoreTable) :
    Nat → Nat → DlResult
  | _, 0 => ⟨e, st, [], none⟩
  | attempt, fuel + 1 =>
    match env.attemptResult e.index attempt with
    | .ok p =>
      let e' := { e with downloadStatus := .downloaded, downloadedPath := some p,
                         attempts := some attempt }
      let st' := storeUpsert st
        { index := e.index, downloadStatus := .downloaded, downloadedPath := some p,
          attempts := some attempt }
      let throttle : List StageEvent :=
        if opts.throttleDelayMs > 0 then [.slept opts.throttleDelayMs] else []
      ⟨e', st', .fetched attempt :: throttle, none⟩
    | .error msg =>
      let e' := { e with errors := e.errors ++ [msg] }
      if opts.retryLimit ≤ attempt then
        let e'' := { e' with downloadStatus := .failed, attempts := some attempt,
                             failureStage := some .download }
        let st' := storeUpsert st
          { index := e.index, downloadStatus := .failed, errors := some e'.errors,
            attempts := some attempt, failureStage := some .download }
        ⟨e'', st', [.fetched attempt], some msg⟩
      else
        let r := downloadLoop opts env e' st (attempt + 1) fuel
        ⟨r.entry, r.store, .fetched attempt :: .slept (backoffDelay attempt) ::
          .gateWait :: r.trace, r.thrown⟩

/-- The `processEntry` (lines 76-123): pause-gate wait, resume short-circuit, then
the retry loop. -/
def processEntry (opts : DlOptions) (env : DlEnv) (st : StoreTable) (e : MemoryEntry) :
    DlResult :=
  match resumeRecord env st e.index with
  | some r =>
    ⟨{ e with downloadStatus := .downloaded, downloadedPath := r.downloadedPath,
              attempts := r.attempts },
      st, [.gateWait], none⟩
  | none =>
    let r := downloadLoop opts env e st 1 opts.retryLimit
    ⟨r.entry, r.store, .gateWait :: r.trace, r.thrown⟩

/-- The per-item wrapper queued in `run` (lines 59-67): an error escaping
`processEntry` is caught and turned into `markFailure(entry, 'download', msg)` —
the item fails in isolation, never aborting the run. -/
def runEntry (opts : DlOptions) (env : DlEnv) (st : StoreTable) (e : MemoryEntry) :
    DlResult :=
  let r := processEntry opts env st e
  match r.thrown with
  | none => r
  | some msg =>
    { r with
      entry := { r.entry with downloadStatus := .failed, failureStage := some .download,
                              errors := r.entry.errors ++ [msg] },
      thrown := none }

/-- The `DownloadService.run` over the item list (jobs sequentialised). -/
def downloadRun (opts : DlOptions) (env : DlEnv) (st : StoreTable) :
    List MemoryEntry → List MemoryEntry × StoreTable × List StageEvent
  | [] => ([], st, [])
  | e :: rest =>
    let r := runEntry opts env st e
    let (es, st', tr) := downloadRun opts env r.store rest
    (r.entry :: es, st', r.trace ++ tr)

/-! ## Magic-byte sniffing — `src/main/utils/magic-bytes.ts`

`detectMagicType` reads the file header; the result type is exact, the read
itself is an environment oracle in the services below. -/

inductive MagicType
  | jpg
  | png
  | zip
  | mp4
  | mov
  | unknown
deriving DecidableEq, Repr

/-! ## Deduplicator — `src/main/services/dedup-service.ts` -/

/-- The `'move' | 'delete' | 'none'` (the last is named `nonePolicy` here because
`none` is taken by `Option`). -/
inductive DedupStrategy
  | move
  | delete
  | nonePolicy
deriving DecidableEq, Repr

/-- File-system effect of the duplicate policy. -/
inductive DedupFileAction
  | removedFile (p : String)
  | movedFile (src target : String)
deriving DecidableEq, Repr

structure DedupOptions where
  duplicatesDir : String
  strategy : DedupStrategy

/-- The `handleDuplicate` (lines 43-56): logs, marks the entry `deduped`, then
applies the configured policy (`none`: nothing; `delete`: remove the file;
`move`: relocate into the duplicates directory and repoint `finalPath`). -/
def handleDuplicate (opts : DedupOptions) (e : MemoryEntry) (reason : String) :
    MemoryEntry × List DedupFileAction × List StageEvent :=
  let ev : List StageEvent := [.logMsg ("Duplicate detected: " ++ reason)]
  let e' := { e with downloadStatus := .deduped }
  match opts.strategy with
  | .nonePolicy => (e', [], ev)
  | .delete => (e', [.removedFile (e.finalPath.getD "")], ev)
  | .move =>
    let target := opts.duplicatesDir ++ "/" ++ basename (e.finalPath.getD "")
    ({ e' with finalPath := some target }, [.movedFile (e.finalPath.getD "") target], ev)

/-- The loop of `DedupService.run` (lines 20-40) with its two seen-maps (URL
keys, then content-hash keys).  `hashOf` models `streamHash` of the finalized
file: byte-identical files have equal hashes.  Note: the source contains no
`waitIfPaused` call, so the trace never records a gate consultation. -/
def dedupGo (opts : DedupOptions) (hashOf : String → String) :
    List String → List String → List MemoryEntry →
      List (MemoryEntry × List DedupFileAction) × List StageEvent
  | _, _, [] => ([], [])
  | urls, hashes, e :: rest =>
    if ¬ truthyStr e.finalPath ∨ e.downloadStatus = .failed then
      let r := dedupGo opts hashOf urls hashes rest
      ((e, []) :: r.1, r.2)
    else if e.downloadUrl ∈ urls then
      let d := handleDuplicate opts e ("Duplicate download URL: " ++ e.downloadUrl)
      let r := dedupGo opts hashOf urls hashes rest
      ((d.1, d.2.1) :: r.1, d.2.2 ++ r.2)
    else
      let urls' := e.downloadUrl :: urls
      let h := hashOf (e.finalPath.getD "")
      let e1 := { e with contentHash := some h }
      if h ∈ hashes then
        let d := handleDuplicate opts e1 "Matching content hash"
        let r := dedupGo opts hashOf urls' hashes rest
        ((d.1, d.2.1) :: r.1, d.2.2 ++ r.2)
      else
        let e2 := { e1 with downloadStatus :=
          if e1.downloadStatus = .metadata then .deduped else e1.downloadStatus }
        let r := dedupGo opts hashOf urls' (h :: hashes) rest
        ((e2, []) :: r.1, r.2)

/-- The `DedupService.run` over the full item list, starting with empty seen-maps. -/
def dedupRun (opts : DedupOptions) (hashOf : String → String) (entries : List MemoryEntry) :
    List (MemoryEntry × List DedupFileAction) × List StageEvent :=
  dedupGo opts hashOf [] [] entries

/-! ## Metadata stage — `src/main/services/metadata-service.ts`

The exiftool write plus the `fs.utimes` alignment are one oracle keyed by the
finalized path. -/

structure MetaEnv where
  metaResult : String → Except String Unit

/-- The `MetadataService.run`: gate wait, skip unless `finalPath` is truthy and
status is `processed`; success advances to `metadata`, failure marks the item
failed at stage `metadata`. -/
def metadataRun (env : MetaEnv) : List MemoryEntry → List MemoryEntry × List StageEvent
  | [] => ([], [])
  | e :: rest =>
    let r := metadataRun env rest
    if ¬ truthyStr e.finalPath ∨ e.downloadStatus ≠ .processed then
      (e :: r.1, .gateWait :: r.2)
    else
      match env.metaResult (e.finalPath.getD "") with
      | .ok _ => ({ e with downloadStatus := .metadata } :: r.1, .gateWait :: r.2)
      | .error msg =>
        ({ e with downloadStatus := .failed, errors := e.errors ++ [msg],
                  failureStage := some .metadata } :: r.1, .gateWait :: r.2)

/-! ## Verifier — `src/main/services/verification-service.ts`

`probeVideo` stands for the ffprobe stream probe (error covers both an ffprobe
failure and a missing video stream); `imageMeta` for `sharp(path).metadata()`,
whose width/height may each be absent. -/

structure VerifyEnv where
  pathExists : String → Bool
  fileSize : String → Nat
  magicOf : String → MagicType
  probeVideo : String → Except String Unit
  imageMeta : String → Except String (Option Nat × Option Nat)
  hashOf : String → String

/-- The `inspectImage` (part of VerificationService): require readable, non-zero
width and height. -/
def inspectImage (env : VerifyEnv) (p : String) : Except String Unit :=
  match env.imageMeta p with
  | .error msg => .error msg
  | .ok (w, h) =>
    if ¬ truthyNat w ∨ ¬ truthyNat h then .error "Unable to read image dimensions."
    else .ok ()

/-- The `ensureFileIntegrity` (lines 38-66): existence, non-emptiness, the magic /
media-kind mismatch checks (`video` rejects a `jpg` sniff, `image` rejects an
`mp4`/`mov` sniff), the structural probe, and the hash-stability check. -/
def ensureFileIntegrity (env : VerifyEnv) (e : MemoryEntry) : Except String MemoryEntry :=
  let p := e.finalPath.getD ""
  if ¬ env.pathExists p then .error "Final output missing on disk."
  else if env.fileSize p = 0 then .error "Final output is empty."
  else if e.mediaType = .video ∧ env.magicOf p = .jpg then
    .error "Expected video but detected image payload."
  else if e.mediaType = .image ∧ (env.magicOf p = .mp4 ∨ env.magicOf p = .mov) then
    .error "Expected image but detected video payload."
  else
    match (if e.mediaType = .video then env.probeVideo p else inspectImage env p) with
    | .error msg => .error msg
    | .ok _ =>
      let h := env.hashOf p
      if truthyStr e.contentHash ∧ e.contentHash ≠ some h then
        .error "Output hash mismatch detected (non-deterministic result)."
      else .ok { e with contentHash := some h }

/-- The `VerificationService.run` (lines 19-36): gate wait, skip items without a
truthy finalized path or already failed, and turn any integrity error into
status `failed` at stage `verification`, isolated to the item. -/
def verifyRun (env : VerifyEnv) : List MemoryEntry → List MemoryEntry × List StageEvent
  | [] => ([], [])
  | e :: rest =>
    let r := verifyRun env rest
    if ¬ truthyStr e.finalPath ∨ e.downloadStatus = .failed then
      (e :: r.1, .gateWait :: r.2)
    else
      match ensureFileIntegrity env e with
      | .ok e' => (e' :: r.1, .gateWait :: r.2)
      | .error msg =>
        ({ e with downloadStatus := .failed, errors := e.errors ++ [msg],
                  failureStage := some .verification } :: r.1, .gateWait :: r.2)

/-! ## Payload composer — `src/main/services/post-process-service.ts`

File writes are reified as `WriteOp` values; their byte-level meaning is given
by `applyOp` under a `ByteEnv` of encoder oracles, so that "byte-identical
copy" versus "re-encode" is observable.  sharp / ffmpeg / ffprobe / zip
extraction are environment oracles. -/

/-- An overlay argument handed to a composite call: the overlay file as-is, or
the fit-inside resized buffer produced by `normalizeOverlay`. -/
inductive OverlayInput
  | asIs (p : String)
  | resized (p : String) (tw th : Option Nat)
deriving DecidableEq, Repr

/-- Probed source-stream facts used to match re-encode parameters.  Only the
frame dimensions are read by the verified claims; the remaining probed fields
(codec, bitrate, frame rate, pixel format, profile, level) parameterise the
encoder options and are carried opaquely. -/
structure VideoStreamInfo where
  width : Nat
  height : Nat
  codecName : Option String := none
deriving DecidableEq, Repr

/-- A reified file-system write/removal performed by the composer. -/
inductive WriteOp
  | copied (src dst : String)
  | sharpWrite (base : String) (overlays : List OverlayInput) (dst : String)
  | mergedOverlay (overlays : List OverlayInput) (w h : Nat) (dst : String)
  | ffmpegWrite (base overlay dst : String)
  | removedDir (dir : String)
  | failureCapture (dir : String)
deriving DecidableEq, Repr

structure PostOptions where
  outputDir : String
  tempDir : String

structure PostEnv where
  clock : Clock
  magicOf : String → MagicType
  zipExtract : String → Except String (List String)
  sizeOf : String → Nat
  sharpMeta : String → Except String (Option Nat × Option Nat)
  videoInfo : String → Except String VideoStreamInfo
  ffmpegRun : String → String → Except String Unit
  extractDirFor : Nat → String
  nowMillis : Nat

def VIDEO_EXTS : List String := [".mp4", ".mov", ".m4v"]

def IMAGE_EXTS : List String := [".jpg", ".jpeg", ".png", ".heic", ".gif", ".webp"]

/-- The `extFromMagic`: canonical extension from the sniffed type (the `switch`
default already covers every case, so the `undefined` branch of the TS type is
dead). -/
def extFromMagic (magic : MagicType) (mediaType : MediaType) : Option String :=
  match magic with
  | .jpg => some ".jpg"
  | .png => some ".png"
  | .mp4 => some ".mp4"
  | .mov => some ".mov"
  | .zip => some ".zip"
  | .unknown => some (if mediaType = .video then ".mp4" else ".jpg")

/-- Result of one post-process step on one entry: the (possibly mutated) entry,
the error message of a thrown exception, and the write operations performed. -/
structure PostStepResult where
  entry : MemoryEntry
  err : Option String
  ops : List WriteOp
deriving Repr

/-- The `copyAndFix` (lines 331-341): sniff, pick the canonical extension, copy the
download into the output directory under the canonical name. -/
def copyAndFix (opts : PostOptions) (env : PostEnv) (e : MemoryEntry) : PostStepResult :=
  let dl := e.downloadedPath.getD ""
  let magic := env.magicOf dl
  let desiredExt :=
    match extFromMagic magic e.mediaType with
    | some x => x
    | none => if e.mediaType = .video then ".mp4" else ".jpg"
  let finalName := buildOutputName env.clock e.capturedAtUtc (mediaTypeString e.mediaType)
    e.index desiredExt
  let finalPath := opts.outputDir ++ "/" ++ finalName
  { entry := { e with finalPath := some finalPath }, err := none,
    ops := [.copied dl finalPath] }

/-- The `normalizeOverlay` (lines 654-673): pass the overlay through when no target
dimensions are truthy or when it already matches them exactly; otherwise resize
fit-inside to the target. -/
def normalizeOverlay (env : PostEnv) (overlayPath : String) (tw th : Option Nat) :
    Except String OverlayInput :=
  if ¬ truthyNat tw ∧ ¬ truthyNat th then .ok (.asIs overlayPath)
  else
    match env.sharpMeta overlayPath with
    | .error msg => .error msg
    | .ok (w, h) =>
      let width := w.getD 0
      let height := h.getD 0
      if truthyNat tw ∧ truthyNat th ∧ some width = tw ∧ some height = th then
        .ok (.asIs overlayPath)
      else .ok (.resized overlayPath tw th)

/-- Normalise a list of overlays, propagating the first failure. -/
def normalizeOverlays (env : PostEnv) (tw th : Option Nat) :
    List String → Except String (List OverlayInput)
  | [] => .ok []
  | o :: os =>
    match normalizeOverlay env o tw th with
    | .error msg => .error msg
    | .ok i =>
      match normalizeOverlays env tw th os with
      | .error msg => .error msg
      | .ok is => .ok (i :: is)

/-- The `composeImage` (lines 397-415): read the base metadata, composite every
validated overlay at the origin (normalised to the base dimensions), and write
the result with the base's extension (or `.jpg`) — always through the sharp
pipeline `toFile`, even when the overlay list is empty. -/
def composeImage (opts : PostOptions) (env : PostEnv) (basePath : String)
    (overlays : List String) (e : MemoryEntry) (mediaType : MediaType) : PostStepResult :=
  match env.sharpMeta basePath with
  | .error msg => { entry := e, err := some msg, ops := [] }
  | .ok (mw, mh) =>
    match normalizeOverlays env mw mh overlays with
    | .error msg => { entry := e, err := some msg, ops := [] }
    | .ok comps =>
      let extUsed := if extname basePath = "" then ".jpg" else extname basePath
      let finalName := buildOutputName env.clock e.capturedAtUtc
        (if mediaType = .video then "video" else "image") e.index extUsed
      let finalPath := opts.outputDir ++ "/" ++ finalName
      { entry := { e with finalPath := some finalPath }, err := none,
        ops := [.sharpWrite basePath comps finalPath] }

/-- The `mergeOverlays` (lines 447-466): pre-merge all overlays onto a transparent
canvas sized to the base video frame, written to a temp `.png`. -/
def mergeOverlays (opts : PostOptions) (env : PostEnv) (paths : List String) (w h : Nat) :
    Except String (String × WriteOp) :=
  match normalizeOverlays env (some w) (some h) paths with
  | .error msg => .error msg
  | .ok comps =>
    let tempFile := opts.tempDir ++ "/overlay-" ++ toString env.nowMillis ++ ".png"
    .ok (tempFile, .mergedOverlay comps w h tempFile)

/-- The `overlayVideo` (lines 417-445): without an overlay the base is copied to the
final location unchanged (no re-encode); with one, a single-pass ffmpeg overlay
filter re-encodes with options matched to the probed source stream. -/
def overlayVideo (opts : PostOptions) (env : PostEnv) (basePath : String)
    (overlayPath : Option String) (e : MemoryEntry) (mediaType : MediaType)
    (_info : Option VideoStreamInfo) : PostStepResult :=
  let extUsed := if extname basePath = "" then ".mp4" else extname basePath
  let finalName := buildOutputName env.clock e.capturedAtUtc
    (if mediaType = .image then "image" else "video") e.index extUsed
  let finalPath := opts.outputDir ++ "/" ++ finalName
  match overlayPath with
  | none =>
    { entry := { e with finalPath := some finalPath }, err := none,
      ops := [.copied basePath finalPath] }
  | some ov =>
    match env.ffmpegRun basePath ov with
    | .error msg => { entry := e, err := some msg, ops := [] }
    | .ok _ =>
      { entry := { e with finalPath := some finalPath }, err := none,
        ops := [.ffmpegWrite basePath ov finalPath] }

/-- The size-scan fallback of `pickBaseFile`: `largest = files[0]; size = 0;`
then keep any strictly larger file. -/
def largestFile (env : PostEnv) : List String → String → Nat → String
  | [], best, _ => best
  | f :: fs, best, sz =>
    if env.sizeOf f > sz then largestFile env fs f (env.sizeOf f)
    else largestFile env fs best sz

/-- The `pickBaseFile` (lines 594-617): prefer a file whose extension matches the
expected media kind (video extensions for video; non-`.png` image extensions
otherwise), falling back to the largest file. -/
def pickBaseFile (env : PostEnv) (files : List String) (mediaType : MediaType) : String :=
  let candidates := files.filter (fun f =>
    let ext := toLowerStr (extname f)
    if mediaType = .video then VIDEO_EXTS.contains ext
    else IMAGE_EXTS.contains ext && ext != ".png")
  match candidates with
  | c :: _ => c
  | [] => largestFile env files (files.headD "") 0

/-- The `inferMediaTypeFromExt` (lines 644-652). -/
def inferMediaTypeFromExt (ext : String) : Option MediaType :=
  if VIDEO_EXTS.contains ext then some .video
  else if IMAGE_EXTS.contains ext then some .image
  else none

/-- The `filterUsableOverlays` (lines 718-735): discard empty or undecodable
overlays with a recorded non-fatal warning on the entry's error list. -/
def filterUsableOverlays (env : PostEnv) : List String → MemoryEntry →
    List String × MemoryEntry
  | [], e => ([], e)
  | o :: os, e =>
    if env.sizeOf o = 0 then
      filterUsableOverlays env os
        { e with errors := e.errors ++
            ["Caption overlay ignored (" ++ basename o ++ "): overlay file is empty"] }
    else
      match env.sharpMeta o with
      | .error msg =>
        filterUsableOverlays env os
          { e with errors := e.errors ++
              ["Caption overlay ignored (" ++ basename o ++ "): " ++ msg] }
      | .ok _ =>
        let r := filterUsableOverlays env os e
        (o :: r.1, r.2)

/-- The `handleZipPayload` (lines 343-395): extract, list, pick base and validated
overlays, correct the media kind from the base extension, compose (video path:
probe then optional overlay pre-merge then overlay; image path: composite);
failures capture the extracted contents into the failure archive before
re-raising, and the extraction directory is always removed afterwards. -/
def handleZipPayload (opts : PostOptions) (env : PostEnv) (e : MemoryEntry) :
    PostStepResult :=
  let extractDir := env.extractDirFor e.index
  match env.zipExtract (e.downloadedPath.getD "") with
  | .error msg => { entry := e, err := some msg, ops := [] }
  | .ok files =>
    let inner : MemoryEntry × Option String × List WriteOp :=
      if files.isEmpty then (e, some "Caption ZIP did not contain any files.", [])
      else
        let b := pickBaseFile env files e.mediaType
        let overlays := files.filter (fun f => toLowerStr (extname f) == ".png" && f != b)
        let fu := filterUsableOverlays env overlays e
        let usable := fu.1
        let e1 := fu.2
        if b = "" then (e1, some "Unable to identify base media within caption ZIP.", [])
        else
          let baseExt := toLowerStr (extname b)
          let target := (inferMediaTypeFromExt baseExt).getD e1.mediaType
          let e2 := { e1 with mediaType := target }
          if target = .video then
            match env.videoInfo b with
            | .error msg => (e2, some msg, [])
            | .ok info =>
              if usable.isEmpty then
                let r := overlayVideo opts env b none e2 target (some info)
                (r.entry, r.err, r.ops)
              else
                match mergeOverlays opts env usable info.width info.height with
                | .error msg => (e2, some msg, [])
                | .ok mo =>
                  let r := overlayVideo opts env b (some mo.1) e2 target (some info)
                  (r.entry, r.err, mo.2 :: r.ops)
          else
            let r := composeImage opts env b usable e2 target
            (r.entry, r.err, r.ops)
    match inner with
    | (e', none, ops) =>
      { entry := e', err := none, ops := ops ++ [.removedDir extractDir] }
    | (e', some msg, ops) =>
      { entry := e', err := some msg,
        ops := ops ++ [.failureCapture extractDir, .removedDir extractDir] }

/-- One entry of `PostProcessService.run`: zip payloads route to the container
path, others to `copyAndFix`. -/
def postStep (opts : PostOptions) (env : PostEnv) (e : MemoryEntry) : PostStepResult :=
  if e.isZipPayload ∨ toLowerStr (extname (e.downloadedPath.getD "")) = ".zip" then
    handleZipPayload opts env e
  else copyAndFix opts env e

/-- The `PostProcessService.run` (lines 306-329): gate wait per entry, skip entries
not in status `downloaded` with a truthy download path, advance successes to
`processed`, mark failures at stage `post-process`. -/
def postProcessRun (opts : PostOptions) (env : PostEnv) :
    List MemoryEntry → List MemoryEntry × List WriteOp × List StageEvent
  | [] => ([], [], [])
  | e :: rest =>
    let r := postProcessRun opts env rest
    if e.downloadStatus ≠ .downloaded ∨ ¬ truthyStr e.downloadedPath then
      (e :: r.1, r.2.1, .gateWait :: r.2.2)
    else
      let s := postStep opts env e
      match s.err with
      | none =>
        ({ s.entry with downloadStatus := .processed } :: r.1, s.ops ++ r.2.1,
          .gateWait :: r.2.2)
      | some msg =>
        ({ s.entry with downloadStatus := .failed, failureStage := some .postProcess,
                        errors := s.entry.errors ++ [msg] } :: r.1, s.ops ++ r.2.1,
          .gateWait :: r.2.2)

/-! ### Byte-level meaning of write operations -/

/-- Encoder oracles: what bytes sharp / ffmpeg produce for a given input.  A
`copied` op is the only one whose output bytes are forced to equal its source's. -/
structure ByteEnv where
  sharpEncode : List Nat → List OverlayInput → List Nat
  mergeEncode : List OverlayInput → Nat → Nat → List Nat
  ffmpegEncode : List Nat → List Nat → List Nat

/-- Apply one write operation to a byte-level file system. -/
def applyOp (benv : ByteEnv) (fs : String → List Nat) : WriteOp → String → List Nat
  | .copied src dst => fun q => if q = dst then fs src else fs q
  | .sharpWrite base comps dst => fun q => if q = dst then benv.sharpEncode (fs base) comps else fs q
  | .mergedOverlay comps w h dst => fun q => if q = dst then benv.mergeEncode comps w h else fs q
  | .ffmpegWrite base ov dst => fun q => if q = dst then benv.ffmpegEncode (fs base) (fs ov) else fs q
  | .removedDir dir => fun q => if strStartsWith q dir then [] else fs q
  | .failureCapture _ => fs

/-- Apply a sequence of write operations in order. -/
def applyOps (benv : ByteEnv) (fs : String → List Nat) (ops : List WriteOp) :
    String → List Nat :=
  ops.foldl (applyOp benv) fs

/-! ## Concrete fixtures for counterexamples and witnesses -/

/-- A clock whose renderers are constant — the filename stamp is `"S"`. -/
def testClock : Clock :=
  ⟨fun _ => none, 0, fun _ => "I", fun _ => "E", fun _ => "S"⟩

def dedupOptsNone : DedupOptions := ⟨"dups", .nonePolicy⟩

def dedupOptsMove : DedupOptions := ⟨"dups", .move⟩

/-- First-seen item of a byte-identical pair, already at the metadata-complete
state when dedup runs. -/
def entryA : MemoryEntry :=
  { baseEntry with index := 0, downloadUrl := "u1", downloadStatus := .metadata,
                   finalPath := some "fa" }

/-- Later-seen item with the same file content but a different source URL. -/
def entryB : MemoryEntry :=
  { baseEntry with index := 1, downloadUrl := "u2", downloadStatus := .metadata,
                   finalPath := some "fb" }

def dlEntryOk : MemoryEntry := { baseEntry with downloadUrl := "u" }

def dlEnvOk : DlEnv := ⟨fun _ => true, fun _ _ => .ok "dl/ok.jpg"⟩

/-- Network that fails attempt 1 and succeeds on attempt 2. -/
def dlEnvRetry : DlEnv :=
  ⟨fun _ => true, fun _ a => if a = 1 then .error "flaky" else .ok "dl/ok.jpg"⟩

def postOptsT : PostOptions := ⟨"out", "tmp"⟩

def postEnvCopy : PostEnv :=
  { clock := testClock, magicOf := fun _ => .jpg, zipExtract := fun _ => .ok [],
    sizeOf := fun _ => 1, sharpMeta := fun _ => .ok (some 1, some 1),
    videoInfo := fun _ => .error "no video", ffmpegRun := fun _ _ => .ok (),
    extractDirFor := fun _ => "zt", nowMillis := 0 }

def ppEntry : MemoryEntry :=
  { baseEntry with downloadStatus := .downloaded, downloadedPath := some "d/x.jpg" }

def metaEnvOk : MetaEnv := ⟨fun _ => .ok ()⟩

def metaEntry : MemoryEntry :=
  { baseEntry with downloadStatus := .processed, finalPath := some "m.jpg" }

def verifyEnvOk : VerifyEnv :=
  ⟨fun _ => true, fun _ => 1, fun _ => .jpg, fun _ => .ok (),
    fun _ => .ok (some 1, some 1), fun _ => "h"⟩

def verifyEntryOk : MemoryEntry :=
  { baseEntry with downloadStatus := .processed, finalPath := some "v.jpg" }

/-- An eligible item sitting at `metadata` when the dedup stage reaches it. -/
def dedupEntryM : MemoryEntry :=
  { baseEntry with downloadStatus := .metadata, finalPath := some "m/f1.jpg",
                   downloadUrl := "u" }

/-- A verification environment where the sniff reports `png`. -/
def verifyEnvPng : VerifyEnv :=
  ⟨fun _ => true, fun _ => 1, fun _ => .png, fun _ => .ok (),
    fun _ => .ok (some 1, some 1), fun _ => "h"⟩

/-- A finalized video item whose file actually sniffs as a PNG still image. -/
def videoPngEntry : MemoryEntry :=
  { baseEntry with mediaType := .video, downloadStatus := .processed,
                   finalPath := some "f.png" }

/-- A finalized video item whose file sniffs as JPEG. -/
def videoJpgEntry : MemoryEntry :=
  { baseEntry with mediaType := .video, downloadStatus := .processed,
                   finalPath := some "v.mp4" }

/-- A downloaded container payload expected to be an image. -/
def zipEntryImage : MemoryEntry :=
  { baseEntry with downloadStatus := .downloaded, downloadedPath := some "d/p.zip",
                   isZipPayload := true }

/-- Container contents: a single JPEG base, no overlay stills. -/
def postEnvZipImage : PostEnv :=
  { clock := testClock, magicOf := fun _ => .zip, zipExtract := fun _ => .ok ["x/b.jpg"],
    sizeOf := fun _ => 3, sharpMeta := fun _ => .ok (some 4, some 5),
    videoInfo := fun _ => .error "no video stream", ffmpegRun := fun _ _ => .ok (),
    extractDirFor := fun _ => "zt", nowMillis := 0 }

/-- An encoder environment whose image encoder emits `[9]` for every input. -/
def byteEnvX : ByteEnv := ⟨fun _ _ => [9], fun _ _ _ => [7], fun _ _ => [8]⟩

/-- Bytes on disk before composing: the container base holds `[1, 2, 3]`. -/
def fsX : String → List Nat := fun p => if p = "x/b.jpg" then [1, 2, 3] else []

/-! ## Theorems -/

/-- **C4.** In the fetch engine, the retry delay after failed attempt `n` doubles
per attempt up to the fixed 30000 ms ceiling: `backoffDelay (n+1)` is the cap of
twice `backoffDelay n`, hence the delay is non-decreasing in `n` and never
exceeds the ceiling, starting from 2000 ms. -/
theorem backoff_doubles_capped_monotone (n : Nat) (h : 1 ≤ n) :
    backoffDelay (n + 1) = min (2 * backoffDelay n) 30000 ∧
    backoffDelay n ≤ backoffDelay (n + 1) ∧
    backoffDelay n ≤ 30000 ∧
    backoffDelay 1 = 2000 := by
  have hpow : 2000 * 2 ^ ((n + 1) - 1) = 2 * (2000 * 2 ^ (n - 1)) := by
    have hn : (n + 1) - 1 = (n - 1) + 1 := by omega
    rw [hn, pow_succ]
    ring
  unfold backoffDelay
  rw [hpow]
  have h1 : (1 : Nat) - 1 = 0 := rfl
  constructor
  · omega
  · constructor
    · omega
    · constructor
      · omega
      · simp

/-- Witness for C4 at `n = 3`: delays 8000 → 16000 ms. -/
theorem backoff_doubles_capped_monotone_witness :
    backoffDelay (3 + 1) = min (2 * backoffDelay 3) 30000 ∧
    backoffDelay 3 ≤ backoffDelay (3 + 1) ∧
    backoffDelay 3 ≤ 30000 ∧
    backoffDelay 1 = 2000 :=
  backoff_doubles_capped_monotone 3 (by decide)

/-- **C8.** The pause gate is idempotent in both directions with no duplicate
notification, `resume()` releases every pending waiter at once, and
`waitIfPaused()` returns immediately when the gate is not paused. -/
theorem pipeline_control_contract (c : PipelineControl) (w : Nat) :
    (c.paused = true → c.pause = (c, [])) ∧
    (c.paused = false → c.resume = (c, [], [])) ∧
    (c.paused = true →
      (c.resume.1.paused = false ∧ c.resume.1.waiters = [] ∧ c.resume.2.1 = c.waiters)) ∧
    (c.paused = false → c.waitIfPaused w = (c, true)) := by
  refine ⟨?_, ?_, ?_, ?_⟩ <;> intro h <;>
    simp [PipelineControl.pause, PipelineControl.resume, PipelineControl.waitIfPaused, h]

/-- Witness for C8 at a concrete paused gate with two pending waiters. -/
theorem pipeline_control_contract_witness :
    ((⟨true, [7, 8], [1]⟩ : PipelineControl).resume.1.paused = false ∧
      (⟨true, [7, 8], [1]⟩ : PipelineControl).resume.1.waiters = [] ∧
      (⟨true, [7, 8], [1]⟩ : PipelineControl).resume.2.1 = [7, 8]) := by
  have h := pipeline_control_contract ⟨true, [7, 8], [1]⟩ 0
  exact h.2.2.1 rfl

/-- The `toFilenameStamp` always produces the stamp rendering of some instant. -/
lemma toFilenameStamp_total (c : Clock) (s : String) :
    ∃ m, toFilenameStamp c s = c.stampOfMillis m := by
  unfold toFilenameStamp
  cases hp : c.parseISO s with
  | some m => exact ⟨m, rfl⟩
  | none => exact ⟨c.nowMillis, rfl⟩

/-- **C10.** `toIsoUtc` is total and never raises: its result is always the UTC
ISO rendering of some instant; empty and unparsable inputs fall back to the
current clock time (hence are well-formed but not reproducible), parsable inputs
render the parsed instant, and the downstream filename stamp of any string is
likewise always a well-formed stamp. -/
theorem toIsoUtc_total_fallback (c : Clock) (raw : String) :
    (∃ m, toIsoUtc c raw = c.isoOfMillis m) ∧
    (raw = "" → toIsoUtc c raw = c.isoOfMillis c.nowMillis) ∧
    (c.parseISO (normalizeDateInput raw) = none →
      toIsoUtc c raw = c.isoOfMillis c.nowMillis) ∧
    (∀ m, raw ≠ "" → c.parseISO (normalizeDateInput raw) = some m →
      toIsoUtc c raw = c.isoOfMillis m) ∧
    (∃ m, toFilenameStamp c (toIsoUtc c raw) = c.stampOfMillis m) := by
  refine ⟨?_, ?_, ?_, ?_, toFilenameStamp_total c _⟩
  · by_cases hraw : raw = ""
    · exact ⟨c.nowMillis, by simp [toIsoUtc, hraw]⟩
    · cases hp : c.parseISO (normalizeDateInput raw) with
      | some m => exact ⟨m, by simp [toIsoUtc, hraw, hp]⟩
      | none => exact ⟨c.nowMillis, by simp [toIsoUtc, hraw, hp]⟩
  · intro h
    simp [toIsoUtc, h]
  · intro h
    by_cases hraw : raw = "" <;> simp [toIsoUtc, hraw, h]
  · intro m hne hm
    simp [toIsoUtc, hne, hm]

/-- Witness for C10: a clock that parses nothing, applied to a garbage date
string — the result falls back to the clock's current instant. -/
theorem toIsoUtc_total_fallback_witness :
    toIsoUtc ⟨fun _ => none, 42, fun m => "iso:" ++ toString m,
        fun m => "exif:" ++ toString m, fun m => "stamp:" ++ toString m⟩ "not a date" =
      "iso:42" := by
  have h := toIsoUtc_total_fallback
    ⟨fun _ => none, 42, fun m => "iso:" ++ toString m,
      fun m => "exif:" ++ toString m, fun m => "stamp:" ++ toString m⟩ "not a date"
  exact h.2.2.1 rfl

/-! ### Store helper lemmas -/

lemma storeGet_storeSet_self (st : StoreTable) (idx : Nat) (v : EntryStateRecord) :
    storeGet (storeSet st idx v) idx = some v := by
  induction st with
  | nil => simp [storeSet, storeGet]
  | cons hd tl ih =>
    obtain ⟨k, r⟩ := hd
    by_cases hk : k = idx <;> simp [storeSet, storeGet, hk, ih]

lemma storeGet_storeUpsert_self (st : StoreTable) (patch : EntryStateRecord) :
    storeGet (storeUpsert st patch) patch.index =
      some (mergeRecord (storeGet st patch.index) patch) := by
  unfold storeUpsert
  exact storeGet_storeSet_self _ _ _

lemma listSet_get?_self {α : Type _} :
    ∀ (l : List α) (i : Nat) (a : α), i < l.length → (l.set i a).get? i = some a := by
  intro l
  induction l with
  | nil => intro i a h; simp at h
  | cons x xs ih =>
    intro i a h
    cases i with
    | zero => rfl
    | succ j =>
      simp only [List.set, List.get?]
      exact ih j a (by simpa using h)

lemma downloadRun_length (opts : DlOptions) (env : DlEnv) :
    ∀ (entries : List MemoryEntry) (st : StoreTable),
      (downloadRun opts env st entries).1.length = entries.length := by
  intro entries
  induction entries with
  | nil => intro st; rfl
  | cons e rest ih => intro st; simp [downloadRun, ih]

/-- **C2.** Resume correctness of the fetch engine: an item whose persisted
record shows status `downloaded` with a still-existing file on disk is never
re-fetched — the engine performs zero network requests for it and copies
`downloadedPath` and `attempts` from the persisted record, leaving the store
untouched. -/
theorem fetch_resume_skips_network (opts : DlOptions) (env : DlEnv) (st : StoreTable)
    (e : MemoryEntry) (r : EntryStateRecord) (p : String)
    (h1 : storeGet st e.index = some r)
    (h2 : r.downloadStatus = .downloaded)
    (h3 : r.downloadedPath = some p)
    (h4 : p ≠ "")
    (h5 : env.pathExists p = true) :
    networkRequests (runEntry opts env st e).trace = 0 ∧
    (runEntry opts env st e).entry.downloadedPath = some p ∧
    (runEntry opts env st e).entry.attempts = r.attempts ∧
    (runEntry opts env st e).entry.downloadStatus = .downloaded ∧
    (runEntry opts env st e).store = st := by
  have hres : resumeRecord env st e.index = some r := by
    simp [resumeRecord, h1, h2, h3, truthyStr, h4, h5]
  simp [runEntry, processEntry, hres, h3, networkRequests]

/-- Witness for C2: one persisted `downloaded` record whose file exists; the
fresh engine pass issues no request and reuses path and attempt count. -/
theorem fetch_resume_skips_network_witness :
    networkRequests (runEntry ⟨3, 0⟩ ⟨fun _ => true, fun _ _ => .error "net"⟩
        [(0, { index := 0, downloadStatus := .downloaded,
               downloadedPath := some "dl/a.jpg", attempts := some 2 })]
        baseEntry).trace = 0 ∧
    (runEntry ⟨3, 0⟩ ⟨fun _ => true, fun _ _ => .error "net"⟩
        [(0, { index := 0, downloadStatus := .downloaded,
               downloadedPath := some "dl/a.jpg", attempts := some 2 })]
        baseEntry).entry.downloadedPath = some "dl/a.jpg" ∧
    (runEntry ⟨3, 0⟩ ⟨fun _ => true, fun _ _ => .error "net"⟩
        [(0, { index := 0, downloadStatus := .downloaded,
               downloadedPath := some "dl/a.jpg", attempts := some 2 })]
        baseEntry).entry.attempts =
      ({ index := 0, downloadStatus := .downloaded,
         downloadedPath := some "dl/a.jpg", attempts := some 2 } : EntryStateRecord).attempts ∧
    (runEntry ⟨3, 0⟩ ⟨fun _ => true, fun _ _ => .error "net"⟩
        [(0, { index := 0, downloadStatus := .downloaded,
               downloadedPath := some "dl/a.jpg", attempts := some 2 })]
        baseEntry).entry.downloadStatus = .downloaded ∧
    (runEntry ⟨3, 0⟩ ⟨fun _ => true, fun _ _ => .error "net"⟩
        [(0, { index := 0, downloadStatus := .downloaded,
               downloadedPath := some "dl/a.jpg", attempts := some 2 })]
        baseEntry).store =
      [(0, { index := 0, downloadStatus := .downloaded,
             downloadedPath := some "dl/a.jpg", attempts := some 2 })] :=
  fetch_resume_skips_network ⟨3, 0⟩ ⟨fun _ => true, fun _ _ => .error "net"⟩
    [(0, { index := 0, downloadStatus := .downloaded,
           downloadedPath := some "dl/a.jpg", attempts := some 2 })]
    baseEntry
    { index := 0, downloadStatus := .downloaded,
      downloadedPath := some "dl/a.jpg", attempts := some 2 }
    "dl/a.jpg" (by decide) rfl rfl (by decide) rfl

/-- **C9 counterexample.** `StateStore.get` executes
`return this.state.entries[index];` — it hands back the stored object itself,
not a shallow copy.  Concretely: with one record stored for index 5, `get(5)`
returns cell 0; assigning a field on the returned object (mutating cell 0)
changes what the store subsequently reports for index 5, contradicting the
claim that "mutating the returned record does not alter the contents of the
store". -/
theorem state_store_get_alias_counterexample :
    heapStoreGet ⟨[(5, 0)]⟩ 5 = some 0 ∧
    storeContents (heapSet ⟨[{ index := 5, downloadStatus := .downloaded }]⟩ 0
        { index := 5, downloadStatus := .failed }) ⟨[(5, 0)]⟩ 5 =
      some { index := 5, downloadStatus := .failed } ∧
    storeContents ⟨[{ index := 5, downloadStatus := .downloaded }]⟩ ⟨[(5, 0)]⟩ 5 =
      some { index := 5, downloadStatus := .downloaded } ∧
    ¬ (storeContents (heapSet ⟨[{ index := 5, downloadStatus := .downloaded }]⟩ 0
          { index := 5, downloadStatus := .failed }) ⟨[(5, 0)]⟩ 5 =
        storeContents ⟨[{ index := 5, downloadStatus := .downloaded }]⟩ ⟨[(5, 0)]⟩ 5) := by
  refine ⟨rfl, rfl, rfl, ?_⟩
  decide

/-- **C9 (amended).** `StateStore.get(index)` returns nothing when no record
exists for that index, and otherwise returns the stored record object itself
(an alias, not a shallow copy): mutating the returned record is visible in the
store's contents on every subsequent read. -/
theorem state_store_get_returns_alias (h : JsHeap) (st : HeapStore) (idx : Nat) :
    (heapStoreGet st idx = none → storeContents h st idx = none) ∧
    (∀ ref r', heapStoreGet st idx = some ref → ref < h.cells.length →
      storeContents (heapSet h ref r') st idx = some r') := by
  constructor
  · intro hnone
    simp [storeContents, hnone]
  · intro ref r' hsome href
    simp only [storeContents, hsome, Option.bind_some]
    simp only [heapGet, heapSet]
    exact listSet_get?_self h.cells ref r' href

/-- Witness for C9's amended theorem at a concrete heap and store. -/
theorem state_store_get_returns_alias_witness :
    storeContents (heapSet ⟨[{ index := 7, downloadStatus := .pending }]⟩ 0
        { index := 7, downloadStatus := .metadata }) ⟨[(7, 0)]⟩ 7 =
      some { index := 7, downloadStatus := .metadata } :=
  (state_store_get_returns_alias ⟨[{ index := 7, downloadStatus := .pending }]⟩
      ⟨[(7, 0)]⟩ 7).2 0 { index := 7, downloadStatus := .metadata } rfl (by decide)

/-- One-step unfolding of the retry loop when the current attempt errors. -/
lemma downloadLoop_succ_error (opts : DlOptions) (env : DlEnv) (e : MemoryEntry)
    (st : StoreTable) (attempt fuel : Nat) (msg : String)
    (h : env.attemptResult e.index attempt = .error msg) :
    downloadLoop opts env e st attempt (fuel + 1) =
      if opts.retryLimit ≤ attempt then
        ⟨{ e with errors := e.errors ++ [msg], downloadStatus := .failed,
                  attempts := some attempt, failureStage := some .download },
          storeUpsert st
            { index := e.index, downloadStatus := .failed,
              errors := some (e.errors ++ [msg]), attempts := some attempt,
              failureStage := some .download },
          [.fetched attempt], some msg⟩
      else
        ⟨(downloadLoop opts env { e with errors := e.errors ++ [msg] } st
            (attempt + 1) fuel).entry,
          (downloadLoop opts env { e with errors := e.errors ++ [msg] } st
            (attempt + 1) fuel).store,
          .fetched attempt :: .slept (backoffDelay attempt) :: .gateWait ::
            (downloadLoop opts env { e with errors := e.errors ++ [msg] } st
              (attempt + 1) fuel).trace,
          (downloadLoop opts env { e with errors := e.errors ++ [msg] } st
            (attempt + 1) fuel).thrown⟩ := by
  rw [downloadLoop, h]

/-- Exhaustion of the retry loop under an all-failing network: starting at a
given attempt with matching fuel, the loop appends every remaining attempt's
error message, marks the entry failed at stage `download` with `attempts` equal
to the retry limit, persists the failed record, and rethrows the last error. -/
lemma downloadLoop_allFail (opts : DlOptions) (env : DlEnv) (msgs : Nat → String)
    (idx : Nat) (hall : ∀ a, env.attemptResult idx a = .error (msgs a)) :
    ∀ (fuel attempt : Nat) (e : MemoryEntry) (st : StoreTable),
      e.index = idx → 1 ≤ fuel → attempt + fuel = opts.retryLimit + 1 →
      (downloadLoop opts env e st attempt fuel).entry =
        { e with errors := e.errors ++ (List.range' attempt fuel).map msgs,
                 downloadStatus := .failed, attempts := some opts.retryLimit,
                 failureStage := some .download } ∧
      (downloadLoop opts env e st attempt fuel).store =
        storeUpsert st
          { index := idx, downloadStatus := .failed,
            errors := some (e.errors ++ (List.range' attempt fuel).map msgs),
            attempts := some opts.retryLimit, failureStage := some .download } ∧
      (downloadLoop opts env e st attempt fuel).thrown = some (msgs opts.retryLimit) := by
  intro fuel
  induction fuel with
  | zero => intro attempt e st _ hfuel _; omega
  | succ f ih =>
    intro attempt e st hidx _ hsum
    subst hidx
    cases f with
    | zero =>
      have hattempt : attempt = opts.retryLimit := by omega
      have hle : opts.retryLimit ≤ attempt := by omega
      rw [downloadLoop_succ_error opts env e st attempt 0 (msgs attempt) (hall attempt),
        if_pos hle]
      subst hattempt
      refine ⟨?_, ?_, rfl⟩ <;> simp [List.range'_one]
    | succ s =>
      have hlt : ¬ opts.retryLimit ≤ attempt := by omega
      have hrec := ih (attempt + 1)
        { e with errors := e.errors ++ [msgs attempt] } st rfl (by omega) (by omega)
      rw [downloadLoop_succ_error opts env e st attempt (s + 1) (msgs attempt) (hall attempt),
        if_neg hlt]
      refine ⟨?_, ?_, hrec.2.2⟩
      · rw [hrec.1]
        simp [List.range'_succ, List.append_assoc]
      · rw [hrec.2.1]
        simp [List.range'_succ, List.append_assoc]

/-- **C3.** Exhausted retries fail in isolation: when every attempt for an item
errors and the retry limit is `L ≥ 1`, the fetch engine leaves the item with
status `failed`, failure stage `download`, `attempts = L`, every attempt's error
message present in the item's error list, a failed record (carrying all `L`
messages) persisted to the state store — and the run goes on to process every
remaining item (no pipeline abort). -/
theorem fetch_exhaustion_fails_isolated (opts : DlOptions) (env : DlEnv)
    (st : StoreTable) (e : MemoryEntry) (msgs : Nat → String) (rest : List MemoryEntry)
    (hL : 1 ≤ opts.retryLimit)
    (hnores : storeGet st e.index = none)
    (hall : ∀ a, env.attemptResult e.index a = .error (msgs a)) :
    (runEntry opts env st e).entry.downloadStatus = .failed ∧
    (runEntry opts env st e).entry.failureStage = some .download ∧
    (runEntry opts env st e).entry.attempts = some opts.retryLimit ∧
    (∀ i, 1 ≤ i → i ≤ opts.retryLimit → msgs i ∈ (runEntry opts env st e).entry.errors) ∧
    storeGet (runEntry opts env st e).store e.index = some
      { index := e.index, downloadStatus := .failed,
        errors := some (e.errors ++ (List.range' 1 opts.retryLimit).map msgs),
        attempts := some opts.retryLimit, failureStage := some .download } ∧
    (downloadRun opts env st (e :: rest)).1.length = rest.length + 1 := by
  have hloop := downloadLoop_allFail opts env msgs e.index hall opts.retryLimit 1 e st
    rfl hL (by omega)
  have hres : resumeRecord env st e.index = none := by
    simp [resumeRecord, hnores]
  have hproc : processEntry opts env st e =
      ⟨(downloadLoop opts env e st 1 opts.retryLimit).entry,
        (downloadLoop opts env e st 1 opts.retryLimit).store,
        .gateWait :: (downloadLoop opts env e st 1 opts.retryLimit).trace,
        (downloadLoop opts env e st 1 opts.retryLimit).thrown⟩ := by
    simp [processEntry, hres]
  have hthrown : (processEntry opts env st e).thrown = some (msgs opts.retryLimit) := by
    rw [hproc]
    exact hloop.2.2
  have hentry : (processEntry opts env st e).entry =
      { e with errors := e.errors ++ (List.range' 1 opts.retryLimit).map msgs,
               downloadStatus := .failed, attempts := some opts.retryLimit,
               failureStage := some .download } := by
    rw [hproc]
    exact hloop.1
  have hstore : (processEntry opts env st e).store =
      storeUpsert st
        { index := e.index, downloadStatus := .failed,
          errors := some (e.errors ++ (List.range' 1 opts.retryLimit).map msgs),
          attempts := some opts.retryLimit, failureStage := some .download } := by
    rw [hproc]
    exact hloop.2.1
  have hrun : runEntry opts env st e =
      { entry :=
          { (processEntry opts env st e).entry with
            downloadStatus := .failed,
            failureStage := some .download,
            errors := (processEntry opts env st e).entry.errors ++ [msgs opts.retryLimit] },
        store := (processEntry opts env st e).store,
        trace := (processEntry opts env st e).trace,
        thrown := none } := by
    simp [runEntry, hthrown]
  refine ⟨?_, ?_, ?_, ?_, ?_, downloadRun_length opts env (e :: rest) st⟩
  · rw [hrun]
  · rw [hrun]
  · rw [hrun]
    simp [hentry]
  · intro i h1 h2
    rw [hrun]
    simp only [hentry]
    have hmem : i ∈ List.range' 1 opts.retryLimit := by
      have := List.mem_range'_1 (m := i) (s := 1) (n := opts.retryLimit)
      rw [this]
      omega
    simp only [List.mem_append]
    exact Or.inl (Or.inr (List.mem_map_of_mem msgs hmem))
  · rw [hrun, hstore]
    have := storeGet_storeUpsert_self st
      { index := e.index, downloadStatus := .failed,
        errors := some (e.errors ++ (List.range' 1 opts.retryLimit).map msgs),
        attempts := some opts.retryLimit, failureStage := some .download }
    rw [this, hnores]
    rfl

/-- Witness for C3: retry limit 2, every attempt times out; the item ends
failed at stage `download` with `attempts = 2`. -/
theorem fetch_exhaustion_fails_isolated_witness :
    (runEntry ⟨2, 0⟩ ⟨fun _ => false, fun _ a => .error ("boom " ++ toString a)⟩
        [] baseEntry).entry.downloadStatus = .failed ∧
    (runEntry ⟨2, 0⟩ ⟨fun _ => false, fun _ a => .error ("boom " ++ toString a)⟩
        [] baseEntry).entry.failureStage = some .download ∧
    (runEntry ⟨2, 0⟩ ⟨fun _ => false, fun _ a => .error ("boom " ++ toString a)⟩
        [] baseEntry).entry.attempts = some 2 :=
  have h := fetch_exhaustion_fails_isolated ⟨2, 0⟩
    ⟨fun _ => false, fun _ a => .error ("boom " ++ toString a)⟩ [] baseEntry
    (fun a => "boom " ++ toString a) [] (by decide) rfl (fun _ => rfl)
  ⟨h.1, h.2.1, h.2.2.1⟩

/-- **C1 counterexample.** Two eligible items (`metadata` status, finalized
paths, non-failed) with byte-identical content: after dedup BOTH end in status
`deduped` — the first-seen non-duplicate is promoted from `metadata` to
`deduped` by dedup-service.ts line 39 — so neither "exactly one of the two
retains a status other than `deduped`" nor "deduplication leaves a
non-duplicate item's status unchanged" holds as claimed. -/
theorem dedup_exactly_one_counterexample :
    truthyStr entryA.finalPath = true ∧ truthyStr entryB.finalPath = true ∧
    entryA.downloadStatus ≠ .failed ∧ entryB.downloadStatus ≠ .failed ∧
    entryA.downloadStatus = .metadata ∧
    ((dedupRun dedupOptsNone (fun _ => "h") [entryA, entryB]).1.map
      (fun x => x.1.downloadStatus)) = [.deduped, .deduped] ∧
    ((dedupRun dedupOptsNone (fun _ => "h") [entryA, entryB]).1.filter
      (fun x => x.1.downloadStatus != .deduped)).length = 0 := by
  decide

/-- **C1 (amended).** When the dedup stage runs over two items with
byte-identical finalized content (both eligible: finalized path, non-failed),
the later-seen item is set to `deduped` and the configured move/delete/none
policy is applied to it alone; the first-seen item has no policy action and
keeps its status — unless that status was `metadata`, in which case it too is
set to `deduped` (the stage's terminal-success promotion). -/
theorem dedup_pair_policy (opts : DedupOptions) (hashOf : String → String)
    (a b : MemoryEntry) (pa pb : String)
    (hfa : a.finalPath = some pa) (hna : pa ≠ "")
    (hfb : b.finalPath = some pb) (hnb : pb ≠ "")
    (hsa : a.downloadStatus ≠ .failed) (hsb : b.downloadStatus ≠ .failed)
    (hh : hashOf pa = hashOf pb) :
    ((dedupRun opts hashOf [a, b]).1.map (fun x => x.1.downloadStatus)) =
      [(if a.downloadStatus = .metadata then .deduped else a.downloadStatus), .deduped] ∧
    ((dedupRun opts hashOf [a, b]).1.map (fun x => x.2)) =
      [[], (match opts.strategy with
            | .nonePolicy => []
            | .delete => [.removedFile pb]
            | .move => [.movedFile pb (opts.duplicatesDir ++ "/" ++ basename pb)])] := by
  have hta : truthyStr (some pa) = true := by simp [truthyStr, hna]
  have htb : truthyStr (some pb) = true := by simp [truthyStr, hnb]
  by_cases hub : b.downloadUrl = a.downloadUrl <;>
    cases hst : opts.strategy <;>
      simp [dedupRun, dedupGo, handleDuplicate, hta, htb, hsa, hsb, hub, hfa, hfb, hh, hst]

/-- Witness for C1's amended theorem: move policy, shared hash, first item at
`metadata` — first promoted without a policy action, second moved. -/
theorem dedup_pair_policy_witness :
    ((dedupRun dedupOptsMove (fun _ => "h") [entryA, entryB]).1.map
      (fun x => x.1.downloadStatus)) =
      [(if entryA.downloadStatus = .metadata then .deduped else entryA.downloadStatus),
        .deduped] ∧
    ((dedupRun dedupOptsMove (fun _ => "h") [entryA, entryB]).1.map (fun x => x.2)) =
      [[], (match dedupOptsMove.strategy with
            | .nonePolicy => []
            | .delete => [.removedFile "fb"]
            | .move => [.movedFile "fb" (dedupOptsMove.duplicatesDir ++ "/" ++ basename "fb")])] :=
  dedup_pair_policy dedupOptsMove (fun _ => "h") entryA entryB "fa" "fb"
    rfl (by decide) rfl (by decide) (by decide) (by decide) rfl

/-- **C5.** The pause gate is awaited once at the start of each item in the
fetch, payload-composition, metadata and verification stages (and again before
each fetch retry) — but the dedup stage consults it zero times while still
processing its item: `DedupService.run` contains no `waitIfPaused` call (its
signature does not even accept the control that pipeline-runner.ts line 127
passes as a third argument), so while paused, dedup keeps starting new
item-level work. -/
theorem dedup_stage_skips_pause_gate :
    countGateWaits (runEntry ⟨1, 0⟩ dlEnvOk [] dlEntryOk).trace = 1 ∧
    countGateWaits (runEntry ⟨2, 0⟩ dlEnvRetry [] dlEntryOk).trace = 2 ∧
    countGateWaits (postProcessRun postOptsT postEnvCopy [ppEntry]).2.2 = 1 ∧
    countGateWaits (metadataRun metaEnvOk [metaEntry]).2 = 1 ∧
    countGateWaits (verifyRun verifyEnvOk [verifyEntryOk]).2 = 1 ∧
    ((dedupRun dedupOptsNone (fun _ => "h") [dedupEntryM]).1.map
      (fun x => x.1.downloadStatus)) = [.deduped] ∧
    countGateWaits (dedupRun dedupOptsNone (fun _ => "h") [dedupEntryM]).2 = 0 := by
  decide

/-- **C6 counterexample.** A finalized item recorded as `video` whose file
sniffs as `png` — an image-only type contradicting the video kind — passes the
verifier's type check untouched (the check only rejects a `jpg` sniff for
video) and, with the stream probe succeeding (ffprobe reports a one-frame
video stream for PNG files), the item ends verification still `processed`,
not `failed`. -/
theorem verification_png_for_video_counterexample :
    videoPngEntry.mediaType = .video ∧
    verifyEnvPng.magicOf "f.png" = .png ∧
    videoPngEntry.downloadStatus ≠ .failed ∧
    ((verifyRun verifyEnvPng [videoPngEntry]).1.map (fun x => x.downloadStatus)) =
      [.processed] := by
  decide

/-- **C6 (amended).** The verifier's sniff check rejects exactly a `jpg` sniff
for an expected video and an `mp4`/`mov` sniff for an expected image: any item
in one of those two mismatch cases (finalized, non-failed) always ends with
status `failed` at stage `verification`, with the error recorded.  Other
contradicting sniffed types (such as `png` for a video) pass the sniff check
and fail only if the structural probe fails. -/
theorem verification_sniff_mismatch_fails (env : VerifyEnv) (e : MemoryEntry) (p : String)
    (hfp : e.finalPath = some p) (hne : p ≠ "") (hst : e.downloadStatus ≠ .failed)
    (hmis : (e.mediaType = .video ∧ env.magicOf p = .jpg) ∨
      (e.mediaType = .image ∧ (env.magicOf p = .mp4 ∨ env.magicOf p = .mov))) :
    ∃ msg, (verifyRun env [e]).1 =
      [{ e with downloadStatus := .failed, errors := e.errors ++ [msg],
                failureStage := some .verification }] := by
  have htr : truthyStr e.finalPath = true := by rw [hfp]; simp [truthyStr, hne]
  have hgd : e.finalPath.getD "" = p := by rw [hfp]; rfl
  have herr : ∃ msg, ensureFileIntegrity env e = .error msg := by
    unfold ensureFileIntegrity
    rw [hgd]
    by_cases h1 : env.pathExists p
    · by_cases h2 : env.fileSize p = 0
      · exact ⟨"Final output is empty.", by simp [h1, h2]⟩
      · rcases hmis with ⟨hv, hm⟩ | ⟨hi, hm⟩
        · exact ⟨"Expected video but detected image payload.", by simp [h1, h2, hv, hm]⟩
        · exact ⟨"Expected image but detected video payload.", by simp [h1, h2, hi, hm]⟩
    · exact ⟨"Final output missing on disk.", by simp [h1]⟩
  obtain ⟨msg, hmsg⟩ := herr
  exact ⟨msg, by simp [verifyRun, htr, hst, hmsg]⟩

/-- Witness for C6's amended theorem: a video item whose file sniffs as JPEG is
rejected by verification. -/
theorem verification_sniff_mismatch_fails_witness :
    ∃ msg, (verifyRun verifyEnvOk [videoJpgEntry]).1 =
      [{ videoJpgEntry with downloadStatus := .failed,
                            errors := videoJpgEntry.errors ++ [msg],
                            failureStage := some .verification }] :=
  verification_sniff_mismatch_fails verifyEnvOk videoJpgEntry "v.mp4" rfl (by decide)
    (by decide) (Or.inl ⟨rfl, rfl⟩)

/-- **C7 counterexample.** A container payload with an image base and an empty
validated overlay list: the composer routes it through `composeImage`, which
always writes via the sharp pipeline's `toFile` — a re-encode, not a
copy/rename.  Under an encoder that emits `[9]` for every input, the final
file's bytes differ from the base's bytes `[1, 2, 3]`, so "final bytes
identical to the base file's bytes, for both image and video bases" is false
(it holds only for video bases). -/
theorem compose_empty_overlays_image_counterexample :
    ((postProcessRun postOptsT postEnvZipImage [zipEntryImage]).1.map
      (fun x => x.downloadStatus)) = [.processed] ∧
    (postProcessRun postOptsT postEnvZipImage [zipEntryImage]).2.1 =
      [.sharpWrite "x/b.jpg" [] "out/S_image_000000.jpg", .removedDir "zt"] ∧
    fsX "x/b.jpg" = [1, 2, 3] ∧
    applyOps byteEnvX fsX (postProcessRun postOptsT postEnvZipImage [zipEntryImage]).2.1
      "out/S_image_000000.jpg" = [9] ∧
    applyOps byteEnvX fsX (postProcessRun postOptsT postEnvZipImage [zipEntryImage]).2.1
      "out/S_image_000000.jpg" ≠ fsX "x/b.jpg" := by
  decide

/-- **C7 (amended).** With an empty validated overlay list the composer never
composites an overlay, but only the video path avoids a re-encode: a video base
with no overlay is copied to the final location — its final bytes are exactly
the base file's bytes under any encoder environment — whereas an image base is
still written through the image library's encode (a `sharpWrite` with no
overlays), whose bytes are encoder-dependent. -/
theorem compose_no_overlay_copy_video_reencode_image (opts : PostOptions) (env : PostEnv)
    (benv : ByteEnv) (fs : String → List Nat) (e : MemoryEntry) (b : String)
    (mt : MediaType) (info : Option VideoStreamInfo) :
    (overlayVideo opts env b none e mt info).err = none ∧
    (overlayVideo opts env b none e mt info).ops =
      [.copied b (opts.outputDir ++ "/" ++ buildOutputName env.clock e.capturedAtUtc
        (if mt = .image then "image" else "video") e.index
        (if extname b = "" then ".mp4" else extname b))] ∧
    applyOps benv fs (overlayVideo opts env b none e mt info).ops
      (opts.outputDir ++ "/" ++ buildOutputName env.clock e.capturedAtUtc
        (if mt = .image then "image" else "video") e.index
        (if extname b = "" then ".mp4" else extname b)) = fs b ∧
    (∀ mw mh, env.sharpMeta b = .ok (mw, mh) →
      (composeImage opts env b [] e mt).ops =
        [.sharpWrite b [] (opts.outputDir ++ "/" ++ buildOutputName env.clock e.capturedAtUtc
          (if mt = .video then "video" else "image") e.index
          (if extname b = "" then ".jpg" else extname b))]) := by
  refine ⟨rfl, rfl, ?_, ?_⟩
  · simp [applyOps, applyOp, overlayVideo]
  · intro mw mh h
    simp [composeImage, h, normalizeOverlays]

/-- Witness for C7's amended theorem at a concrete video base and encoder
environment. -/
theorem compose_no_overlay_copy_video_reencode_image_witness :
    (overlayVideo postOptsT postEnvZipImage "x/b.jpg" none baseEntry .video none).err =
      none ∧
    applyOps byteEnvX fsX
      (overlayVideo postOptsT postEnvZipImage "x/b.jpg" none baseEntry .video none).ops
      (postOptsT.outputDir ++ "/" ++ buildOutputName postEnvZipImage.clock
        baseEntry.capturedAtUtc (if MediaType.video = .image then "image" else "video")
        baseEntry.index (if extname "x/b.jpg" = "" then ".mp4" else extname "x/b.jpg")) =
      fsX "x/b.jpg" ∧
    (composeImage postOptsT postEnvZipImage "x/b.jpg" [] baseEntry .video).ops =
      [.sharpWrite "x/b.jpg" []
        (postOptsT.outputDir ++ "/" ++ buildOutputName postEnvZipImage.clock
          baseEntry.capturedAtUtc (if MediaType.video = .video then "video" else "image")
          baseEntry.index (if extname "x/b.jpg" = "" then ".jpg" else extname "x/b.jpg"))] :=
  have h := compose_no_overlay_copy_video_reencode_image postOptsT postEnvZipImage byteEnvX
    fsX baseEntry "x/b.jpg" .video none
  ⟨h.1, h.2.2.1, h.2.2.2 (some 4) (some 5) rfl⟩
